import Mathlib

/-!
# Verification of `alacritty/src/renderer/rects.rs`

A shallow embedding of the text-decoration rect pipeline: the decoration
accumulator (`RenderLines`), the geometry compiler (`RenderLine.rects` /
`push_rects` / `create_rect`) and the batch renderer (`RectRenderer::draw`,
`RectRenderer::new`).

Modelling conventions:
* `f32` values are modelled as `ℚ`; Rust's `f32::round` (round half away
  from zero) is `roundQ`, `f32::max` is `max`, `f32::abs` is `abs`.
* `usize` values (`Point<usize>` lines, `Column`) are `ℕ`.
* `Flags` (a bitflags set from `alacritty_terminal::term::cell`, external to
  this file's source) is modelled as the set of the eight bits this source
  reads: the seven decoration flags plus `WIDE_CHAR`.
* `HashMap<Flags, Vec<RenderLine>>` is modelled as a total function
  `Flags → List RenderLine` defaulting to `[]` (absent key = empty vec).
* A Rust `panic!`/`unimplemented!` is modelled by returning `none`.
* GL side effects in `draw` are modelled as the list of draw steps the loop
  performs; a `DrawStep` records one `BufferData` upload plus one
  `DrawArrays` submission for one kind bucket.
-/

/-- RGB color (`crate::display::color::Rgb`); only equality and channel
passthrough are used by this source. -/
structure Rgb where
  r : ℕ
  g : ℕ
  b : ℕ
deriving DecidableEq, Repr

/-- Grid position (`Point<usize>`: a row index and a column index). -/
structure GridPoint where
  line : ℕ
  column : ℕ
deriving DecidableEq, Repr

/-- The cell-flag bits that `rects.rs` reads, modelled as a record of
booleans (one per bit of the external bitflags type). -/
structure Flags where
  underline : Bool
  doubleUnderline : Bool
  strikeout : Bool
  undercurl : Bool
  dottedUnderline : Bool
  dashedUnderline : Bool
  roundedBackground : Bool
  wideChar : Bool
deriving DecidableEq, Repr

namespace Flags

/-- The all-clear flag value (`Flags::empty()`). -/
def empty : Flags := ⟨false, false, false, false, false, false, false, false⟩

/-- Constant `Flags::UNDERLINE`. -/
def UNDERLINE : Flags := { empty with underline := true }

/-- Constant `Flags::DOUBLE_UNDERLINE`. -/
def DOUBLE_UNDERLINE : Flags := { empty with doubleUnderline := true }

/-- Constant `Flags::STRIKEOUT`. -/
def STRIKEOUT : Flags := { empty with strikeout := true }

/-- Constant `Flags::UNDERCURL`. -/
def UNDERCURL : Flags := { empty with undercurl := true }

/-- Constant `Flags::DOTTED_UNDERLINE`. -/
def DOTTED_UNDERLINE : Flags := { empty with dottedUnderline := true }

/-- Constant `Flags::DASHED_UNDERLINE`. -/
def DASHED_UNDERLINE : Flags := { empty with dashedUnderline := true }

/-- Constant `Flags::ROUNDED_BACKGROUND`. -/
def ROUNDED_BACKGROUND : Flags := { empty with roundedBackground := true }

/-- Constant `Flags::WIDE_CHAR`. -/
def WIDE_CHAR : Flags := { empty with wideChar := true }

/-- Operation `a.contains(b)` of `bitflags`: every bit set in `b` is set in `a`. -/
def contains (a b : Flags) : Bool :=
  (!b.underline || a.underline) &&
  (!b.doubleUnderline || a.doubleUnderline) &&
  (!b.strikeout || a.strikeout) &&
  (!b.undercurl || a.undercurl) &&
  (!b.dottedUnderline || a.dottedUnderline) &&
  (!b.dashedUnderline || a.dashedUnderline) &&
  (!b.roundedBackground || a.roundedBackground) &&
  (!b.wideChar || a.wideChar)

/-- The seven decoration flags handled by the compiler, in the order
`RenderLines::update` visits them. -/
def decorationFlags : List Flags :=
  [UNDERLINE, DOUBLE_UNDERLINE, STRIKEOUT, UNDERCURL,
   DOTTED_UNDERLINE, DASHED_UNDERLINE, ROUNDED_BACKGROUND]

end Flags

/-- Enum `RectKind` (without the `NumKinds` length sentinel of the Rust enum). -/
inductive RectKind where
  | Underline
  | Undercurl
  | UnderDotted
  | UnderDashed
  | RoundedBg
deriving DecidableEq, Repr

namespace RectKind

/-- The `repr(u8)` ordinal of each kind. -/
def toNat : RectKind → ℕ
  | Underline => 0
  | Undercurl => 1
  | UnderDotted => 2
  | UnderDashed => 3
  | RoundedBg => 4

/-- Value of `RectKind::NumKinds as usize`. -/
def numKinds : ℕ := 5

/-- Inverse of `toNat` on the loop range `0..NumKinds`. -/
def fromNat : ℕ → Option RectKind
  | 0 => some Underline
  | 1 => some Undercurl
  | 2 => some UnderDotted
  | 3 => some UnderDashed
  | 4 => some RoundedBg
  | _ => none

end RectKind

/-- Struct `RenderRect`. -/
structure RenderRect where
  x : ℚ
  y : ℚ
  width : ℚ
  height : ℚ
  color : Rgb
  alpha : ℚ
  kind : RectKind
deriving DecidableEq, Repr

/-- Constructor `RenderRect::new`: the plain constructor always sets `kind` to
`Underline`. -/
def RenderRect.new (x y width height : ℚ) (color : Rgb) (alpha : ℚ) :
    RenderRect :=
  { kind := RectKind.Underline, x, y, width, height, color, alpha }

/-- Struct `RenderLine`: a merged grid-space segment. -/
structure RenderLine where
  start : GridPoint
  stop : GridPoint
  color : Rgb
deriving DecidableEq, Repr

/-- The fields of `crossfont::Metrics` this source reads. -/
structure Metrics where
  descent : ℚ
  underline_position : ℚ
  underline_thickness : ℚ
  strikeout_position : ℚ
  strikeout_thickness : ℚ
deriving DecidableEq, Repr

/-- The part of `SizeInfo` this source reads.  `columns` is the grid column
count, so `last_column()` is `columns - 1`. -/
structure SizeInfo where
  width : ℚ
  height : ℚ
  cellWidth : ℚ
  cellHeight : ℚ
  paddingX : ℚ
  paddingY : ℚ
  columns : ℕ
deriving DecidableEq, Repr

/-- Accessor `SizeInfo::last_column` (`Dimensions::last_column`). -/
def SizeInfo.lastColumn (s : SizeInfo) : ℕ := s.columns - 1

/-- Rust `f32::round`: round to nearest integer, ties away from zero. -/
def roundQ (q : ℚ) : ℤ :=
  if 0 ≤ q then ⌊q + 1 / 2⌋ else ⌈q - 1 / 2⌉

namespace RenderLine

/-- Function `RenderLine::create_rect`: build one rect at a position relative to the
baseline. -/
def createRect (size : SizeInfo) (descent : ℚ) (start stop : GridPoint)
    (position thickness : ℚ) (color : Rgb) : RenderRect :=
  let start_x : ℚ := (start.column : ℚ) * size.cellWidth
  let end_x : ℚ := ((stop.column : ℚ) + 1) * size.cellWidth
  let width : ℚ := end_x - start_x
  let thickness : ℚ := max thickness 1
  let line_bottom : ℚ := ((start.line : ℚ) + 1) * size.cellHeight
  let baseline : ℚ := line_bottom + descent
  let y0 : ℚ := (roundQ (baseline - position - thickness / 2) : ℚ)
  let max_y : ℚ := line_bottom - thickness
  let y : ℚ := if y0 > max_y then max_y else y0
  RenderRect.new (start_x + size.paddingX) (y + size.paddingY) width
    thickness color 1

/-- Function `RenderLine::push_rects`: the rects pushed for one row sub-segment, in
push order.  The `unimplemented!` arm for an unrecognized flag is `none`. -/
def pushRects (metrics : Metrics) (size : SizeInfo) (flag : Flags)
    (start stop : GridPoint) (color : Rgb) : Option (List RenderRect) :=
  if flag = Flags.DOUBLE_UNDERLINE then
    -- Position underlines so each one has 50% of descent available.
    let top_pos : ℚ := 0.25 * metrics.descent
    let bottom_pos : ℚ := 0.75 * metrics.descent
    let top := createRect size metrics.descent start stop top_pos
      metrics.underline_thickness color
    let bottom := createRect size metrics.descent start stop bottom_pos
      metrics.underline_thickness color
    some [top, { bottom with kind := RectKind.Underline }]
  else
    let sel : Option (ℚ × ℚ × RectKind) :=
      if flag = Flags.UNDERCURL then
        some (metrics.descent, |metrics.descent|, RectKind.Undercurl)
      else if flag = Flags.UNDERLINE then
        some (metrics.underline_position, metrics.underline_thickness,
          RectKind.Underline)
      else if flag = Flags.DOTTED_UNDERLINE then
        some (metrics.descent, |metrics.descent|, RectKind.UnderDotted)
      else if flag = Flags.DASHED_UNDERLINE then
        some (metrics.underline_position, metrics.underline_thickness,
          RectKind.UnderDashed)
      else if flag = Flags.STRIKEOUT then
        some (metrics.strikeout_position, metrics.strikeout_thickness,
          RectKind.Underline)
      else if flag = Flags.ROUNDED_BACKGROUND then
        some (metrics.descent, size.cellHeight, RectKind.RoundedBg)
      else
        none
    match sel with
    | some (position, thickness, ty) =>
      let rect := createRect size metrics.descent start stop position
        thickness color
      some [{ rect with kind := ty }]
    | none => none

/-- The body of the `while start.line < self.end.line` loop of
`RenderLine::rects`, expressed by structural recursion on the remaining row
count `stop.line - start.line` (the loop variable `start.line` increases by
one each iteration). -/
def rectsGo (metrics : Metrics) (size : SizeInfo) (flag : Flags)
    (color : Rgb) (stop : GridPoint) :
    ℕ → GridPoint → Option (List RenderRect)
  | 0, start => pushRects metrics size flag start stop color
  | gas + 1, start =>
    match pushRects metrics size flag start ⟨start.line, size.lastColumn⟩
        color,
      rectsGo metrics size flag color stop gas ⟨start.line + 1, 0⟩ with
    | some a, some b => some (a ++ b)
    | _, _ => none

/-- Function `RenderLine::rects`: split a segment into per-row sub-segments and
compile each. -/
def rects (l : RenderLine) (flag : Flags) (metrics : Metrics)
    (size : SizeInfo) : Option (List RenderRect) :=
  rectsGo metrics size flag l.color l.stop (l.stop.line - l.start.line)
    l.start

/-- The per-row sub-segment decomposition performed by the loop of
`RenderLine::rects` (same recursion as `rectsGo`, recording the
`(start, end)` pair passed to each `push_rects` call instead of
compiling it). -/
def subSegmentsGo (lastColumn : ℕ) (stop : GridPoint) :
    ℕ → GridPoint → List (GridPoint × GridPoint)
  | 0, start => [(start, stop)]
  | gas + 1, start =>
    (start, ⟨start.line, lastColumn⟩) ::
      subSegmentsGo lastColumn stop gas ⟨start.line + 1, 0⟩

/-- The sub-segments of a segment: one per row from `start.line` to
`stop.line`. -/
def subSegments (lastColumn : ℕ) (start stop : GridPoint) :
    List (GridPoint × GridPoint) :=
  subSegmentsGo lastColumn stop (stop.line - start.line) start

end RenderLine

/-- The fields of `RenderableCell` this source reads. -/
structure RenderableCell where
  point : GridPoint
  fg : Rgb
  underline : Rgb
  flags : Flags
deriving DecidableEq, Repr

/-- Struct `RenderLines`: the decoration accumulator.  The hash map is a total
function defaulting to `[]`. -/
structure RenderLines where
  inner : Flags → List RenderLine

namespace RenderLines

/-- Constructor `RenderLines::new` / `Default`. -/
def new : RenderLines := ⟨fun _ => []⟩

/-- The resolved segment color of `update_flag`: the underline color
escape does not apply to strikeout. -/
def resolvedColor (cell : RenderableCell) (flag : Flags) : Rgb :=
  if flag.contains Flags.STRIKEOUT then cell.fg else cell.underline

/-- The cell's logical end point in `update_flag`: include the wide char
spacer if the current cell is a wide char. -/
def logicalStop (cell : RenderableCell) : GridPoint :=
  if cell.flags.contains Flags.WIDE_CHAR then
    ⟨cell.point.line, cell.point.column + 1⟩
  else cell.point

/-- The transition `update_flag` applies to the segment vector of `flag`:
a no-op when the cell lacks the flag; otherwise extend the most recent
segment in place when it ends one column before the cell on the same row
with the same color, and push a fresh segment otherwise (an absent hash
map key and an empty vector both mean "no active line"). -/
def stepBucket (cell : RenderableCell) (flag : Flags)
    (bucket : List RenderLine) : List RenderLine :=
  if !(cell.flags.contains flag) then bucket
  else
    let color := resolvedColor cell flag
    let stop := logicalStop cell
    match bucket.getLast? with
    | some line =>
      if color = line.color ∧ cell.point.column = line.stop.column + 1 ∧
          cell.point.line = line.stop.line then
        bucket.dropLast ++ [{ line with stop := stop }]
      else
        bucket ++ [{ start := cell.point, stop := stop, color := color }]
    | none =>
      bucket ++ [{ start := cell.point, stop := stop, color := color }]

/-- Method `RenderLines::update_flag`: update the segments of one flag with the
next cell; only that flag's hash map entry changes. -/
def updateFlag (m : RenderLines) (cell : RenderableCell) (flag : Flags) :
    RenderLines :=
  ⟨fun f =>
    if f = flag then stepBucket cell flag (m.inner flag) else m.inner f⟩

/-- Method `RenderLines::update`: feed one cell for all seven decoration flags. -/
def update (m : RenderLines) (cell : RenderableCell) : RenderLines :=
  let m := m.updateFlag cell Flags.UNDERLINE
  let m := m.updateFlag cell Flags.DOUBLE_UNDERLINE
  let m := m.updateFlag cell Flags.STRIKEOUT
  let m := m.updateFlag cell Flags.UNDERCURL
  let m := m.updateFlag cell Flags.DOTTED_UNDERLINE
  let m := m.updateFlag cell Flags.DASHED_UNDERLINE
  let m := m.updateFlag cell Flags.ROUNDED_BACKGROUND
  m

end RenderLines

/-- A vertex of the rect batch (`Vertex`): normalized device coordinates
plus four 8-bit color channels. -/
structure Vertex where
  x : ℚ
  y : ℚ
  r : ℕ
  g : ℕ
  b : ℕ
  a : ℕ
deriving DecidableEq, Repr

/-- Rust's saturating `as u8` cast on a non-negative-or-clamped float:
truncation toward zero, clamped into `[0, 255]`. -/
def satU8 (q : ℚ) : ℕ :=
  if q ≤ 0 then 0 else min 255 ⌊q⌋.toNat

namespace RectRenderer

/-- Function `RectRenderer::add_rect`: the six vertices (two triangles) appended for
one rect, in push order. -/
def addRect (center_x center_y : ℚ) (rect : RenderRect) : List Vertex :=
  let x : ℚ := rect.x / center_x - 1
  let y : ℚ := -rect.y / center_y + 1
  let width : ℚ := rect.width / center_x
  let height : ℚ := rect.height / center_y
  let r := rect.color.r
  let g := rect.color.g
  let b := rect.color.b
  let a := satU8 (rect.alpha * 255)
  let q0 : Vertex := ⟨x, y, r, g, b, a⟩
  let q1 : Vertex := ⟨x, y - height, r, g, b, a⟩
  let q2 : Vertex := ⟨x + width, y, r, g, b, a⟩
  let q3 : Vertex := ⟨x + width, y - height, r, g, b, a⟩
  [q0, q1, q2, q2, q3, q1]

/-- The per-kind vertex scratch buffers after the build loop of `draw`:
each rect's six vertices are appended to the bucket of its kind, in
arrival order (buffers start cleared). -/
def buildVertices (center_x center_y : ℚ) (rects : List RenderRect) :
    RectKind → List Vertex :=
  rects.foldl
    (fun vs rect => fun k =>
      if k = rect.kind then vs k ++ addRect center_x center_y rect
      else vs k)
    (fun _ => [])

/-- One iteration of the reversed-order draw loop that found a non-empty
bucket: one `BufferData` upload and one `DrawArrays` submission of
`vertexCount` vertices with the bucket kind's program. -/
structure DrawStep where
  kind : RectKind
  vertexCount : ℕ
deriving DecidableEq, Repr

/-- The draw submissions of `RectRenderer::draw`: iterate kind ordinals
`(0..NumKinds).rev()`, skip empty buckets, and emit one upload plus one
draw call per non-empty bucket. -/
def drawSteps (size : SizeInfo) (rects : List RenderRect) :
    List DrawStep :=
  let center_x := size.width / 2
  let center_y := size.height / 2
  let verts := buildVertices center_x center_y rects
  (List.range RectKind.numKinds).reverse.filterMap fun i =>
    match RectKind.fromNat i with
    | some k =>
      if (verts k).isEmpty then none else some ⟨k, (verts k).length⟩
    | none => none

end RectRenderer

/-- A compiled rect shader program, identified by the preprocessor header
it was compiled with (`RectShaderProgram` holds the program plus uniform
handles; only the identity of the compiled variant matters here). -/
structure RectShaderProgram where
  header : Option String
deriving DecidableEq, Repr

/-- The `#define` header selected per kind in `RectShaderProgram::new`
(`Underline` and the strikeout-sharing kinds define none). -/
def shaderHeader : RectKind → Option String
  | RectKind.RoundedBg => some "#define DRAW_ROUNDED_BACKGROUND\n"
  | RectKind.Undercurl => some "#define DRAW_UNDER_CURL\n"
  | RectKind.UnderDotted => some "#define DRAW_UNDER_DOTTED\n"
  | RectKind.UnderDashed => some "#define DRAW_UNDER_DASHED\n"
  | _ => none

/-- Constructor `RectShaderProgram::new`, with the external GL compilation primitive
abstracted as a fault oracle `fails`: compiling the variant for `kind`
fails exactly when `fails kind` is `true`. -/
def RectShaderProgram.new (fails : RectKind → Bool) (kind : RectKind) :
    Except Unit RectShaderProgram :=
  if fails kind then Except.error () else Except.ok ⟨shaderHeader kind⟩

/-- Constructor `RectRenderer::new` (the shader-program part): compile the five
variants in source order; a failure of the `UnderDotted` variant is caught
and replaced by compiling an `Underline` program, every other failure
propagates.  Returns the `programs` array, indexed by kind ordinal. -/
def RectRenderer.new (fails : RectKind → Bool) :
    Except Unit (List RectShaderProgram) := do
  let under_line_program ← RectShaderProgram.new fails RectKind.Underline
  let under_curl_program ← RectShaderProgram.new fails RectKind.Undercurl
  -- This shader has way more ALU operations than other rect shaders, so
  -- use a fallback to underline just for it when we can't compile it.
  let under_dotted_program ←
    match RectShaderProgram.new fails RectKind.UnderDotted with
    | Except.ok p => pure p
    | Except.error _ => RectShaderProgram.new fails RectKind.Underline
  let under_dashed_program ← RectShaderProgram.new fails RectKind.UnderDashed
  let rounded_background_program ←
    RectShaderProgram.new fails RectKind.RoundedBg
  Except.ok [under_line_program, under_curl_program, under_dotted_program,
    under_dashed_program, rounded_background_program]

example :
    ((RenderLines.new.update
      ⟨⟨0, 0⟩, ⟨1, 1, 1⟩, ⟨2, 2, 2⟩, Flags.UNDERLINE⟩).inner
        Flags.UNDERLINE) =
    [⟨⟨0, 0⟩, ⟨0, 0⟩, ⟨2, 2, 2⟩⟩] := by decide

example :
    (RectRenderer.drawSteps ⟨100, 100, 10, 20, 0, 0, 80⟩
      [RenderRect.new 0 0 1 1 ⟨0, 0, 0⟩ 1]).map RectRenderer.DrawStep.kind =
    [RectKind.Underline] := by decide

/-! ## Theorems -/

/-- C9. Thickness floor: `create_rect` floors the incoming thickness at
1 device unit — the compiled rect's height is `max thickness 1`, so a rule
value strictly below 1 becomes exactly 1 and a value of at least 1 passes
through unchanged. -/
theorem createRect_thickness_floor (size : SizeInfo) (descent : ℚ)
    (start stop : GridPoint) (position thickness : ℚ) (color : Rgb) :
    (RenderLine.createRect size descent start stop position thickness
        color).height = max thickness 1 ∧
    (thickness < 1 →
      (RenderLine.createRect size descent start stop position thickness
        color).height = 1) ∧
    (1 ≤ thickness →
      (RenderLine.createRect size descent start stop position thickness
        color).height = thickness) := by
  refine ⟨rfl, fun h => ?_, fun h => ?_⟩
  · show max thickness 1 = 1
    exact max_eq_right h.le
  · show max thickness 1 = thickness
    exact max_eq_left h

/-- Concrete check of `createRect_thickness_floor`: a 1/2-thick rule is
floored to 1, a 3-thick rule passes through. -/
theorem createRect_thickness_floor_witness :
    ((1 : ℚ) / 2 < 1 ∧
      (RenderLine.createRect ⟨800, 600, 10, 20, 0, 0, 80⟩ (-4) ⟨0, 0⟩
        ⟨0, 4⟩ (-2) (1 / 2) ⟨255, 0, 0⟩).height = 1) ∧
    ((1 : ℚ) ≤ 3 ∧
      (RenderLine.createRect ⟨800, 600, 10, 20, 0, 0, 80⟩ (-4) ⟨0, 0⟩
        ⟨0, 4⟩ (-2) 3 ⟨255, 0, 0⟩).height = 3) :=
  ⟨⟨by norm_num,
    (createRect_thickness_floor _ _ _ _ _ _ _).2.1 (by norm_num)⟩,
   ⟨by norm_num,
    (createRect_thickness_floor _ _ _ _ _ _ _).2.2 (by norm_num)⟩⟩

/-- C8. A flag that is not one of the seven recognized decoration flags
reaches the `unimplemented!` arm of `push_rects`: the compiler panics
(modelled as `none`) rather than ignoring the flag or returning an empty
rect list. -/
theorem pushRects_unsupported_flag (metrics : Metrics) (size : SizeInfo)
    (flag : Flags) (start stop : GridPoint) (color : Rgb)
    (h : flag ∉ Flags.decorationFlags) :
    RenderLine.pushRects metrics size flag start stop color = none := by
  simp only [Flags.decorationFlags, List.mem_cons, List.not_mem_nil,
    or_false, not_or] at h
  obtain ⟨h1, h2, h3, h4, h5, h6, h7⟩ := h
  simp [RenderLine.pushRects, h1, h2, h3, h4, h5, h6, h7]

/-- Concrete check of `pushRects_unsupported_flag` at the `WIDE_CHAR`
flag. -/
theorem pushRects_unsupported_flag_witness :
    Flags.WIDE_CHAR ∉ Flags.decorationFlags ∧
    RenderLine.pushRects ⟨0, 0, 0, 0, 0⟩ ⟨0, 0, 0, 0, 0, 0, 0⟩
      Flags.WIDE_CHAR ⟨0, 0⟩ ⟨0, 0⟩ ⟨0, 0, 0⟩ = none :=
  ⟨by decide, pushRects_unsupported_flag _ _ _ _ _ _ (by decide)⟩

/-- C1, counterexample. The spec's scenario metrics
(`underline_position = -2`, `underline_thickness = 1`, `cell_height = 20`,
`descent = -4`) with vertical padding 1: the claimed value
`round(baseline - offset - thickness/2)` is 18 and no clamp applies
(`18 ≤ row_bottom - thickness = 19`), yet the produced rect's y is 19,
because `create_rect` adds `size.padding_y()` to the clamped value. -/
theorem createRect_y_padding_cex :
    ((roundQ ((((0 : ℚ) + 1) * 20 + -4) - -2 - max 1 1 / 2) : ℤ) : ℚ)
        = 18 ∧
    ¬ ((18 : ℚ) > ((0 : ℚ) + 1) * 20 - max 1 1) ∧
    (RenderLine.pushRects ⟨-4, -2, 1, 0, 0⟩ ⟨800, 600, 10, 20, 0, 1, 80⟩
        Flags.UNDERLINE ⟨0, 0⟩ ⟨0, 4⟩ ⟨255, 0, 0⟩).map
      (fun rs => rs.map RenderRect.y) = some [19] ∧
    (19 : ℚ) ≠ 18 := by
  refine ⟨by norm_num [roundQ], by norm_num, ?_, by norm_num⟩
  norm_num [RenderLine.pushRects, RenderLine.createRect, RenderRect.new,
    roundQ, Flags.UNDERLINE, Flags.DOUBLE_UNDERLINE, Flags.UNDERCURL,
    Flags.empty]

/-- C1, amended. `create_rect`'s vertical position: with effective
thickness `t = max thickness 1`, `row_bottom = (row+1) * cell_height` and
`baseline = row_bottom + descent`, the rect's y is
`round(baseline - offset - t/2)` clamped from above at `row_bottom - t`,
**plus the viewport's vertical padding**; in particular whenever the
rounded value exceeds `row_bottom - t` the rect's y is exactly
`(row_bottom - t) + padding_y`. -/
theorem createRect_y_clamp (size : SizeInfo) (descent : ℚ)
    (start stop : GridPoint) (position thickness : ℚ) (color : Rgb) :
    ((RenderLine.createRect size descent start stop position thickness
        color).y
      = (if ((roundQ ((((start.line : ℚ) + 1) * size.cellHeight + descent)
              - position - max thickness 1 / 2) : ℚ))
            > ((start.line : ℚ) + 1) * size.cellHeight - max thickness 1
         then ((start.line : ℚ) + 1) * size.cellHeight - max thickness 1
         else ((roundQ ((((start.line : ℚ) + 1) * size.cellHeight + descent)
              - position - max thickness 1 / 2) : ℚ)))
        + size.paddingY) ∧
    (((roundQ ((((start.line : ℚ) + 1) * size.cellHeight + descent)
          - position - max thickness 1 / 2) : ℚ))
        > ((start.line : ℚ) + 1) * size.cellHeight - max thickness 1 →
      (RenderLine.createRect size descent start stop position thickness
          color).y
        = (((start.line : ℚ) + 1) * size.cellHeight - max thickness 1)
          + size.paddingY) := by
  refine ⟨rfl, fun h => ?_⟩
  show (if _ > _ then _ else _) + size.paddingY = _
  rw [if_pos h]

/-- Rust's `f32::round` (ties away from zero) is monotone. -/
theorem roundQ_mono {a b : ℚ} (h : a ≤ b) : roundQ a ≤ roundQ b := by
  unfold roundQ
  rcases le_or_lt 0 a with ha | ha
  · rw [if_pos ha, if_pos (le_trans ha h)]
    exact Int.floor_le_floor (by linarith)
  · rw [if_neg (not_le.mpr ha)]
    rcases le_or_lt 0 b with hb | hb
    · rw [if_pos hb]
      calc ⌈a - 1 / 2⌉ ≤ ⌈(0 : ℚ)⌉ := Int.ceil_le_ceil (by linarith)
        _ ≤ ⌊b + 1 / 2⌋ := by
            rw [Int.ceil_zero]
            exact Int.le_floor.mpr (by push_cast; linarith)
    · rw [if_neg (not_le.mpr hb)]
      exact Int.ceil_le_ceil (by linarith)

/-- Clamping from above at a fixed bound is monotone. -/
theorem clamp_mono {a b m : ℚ} (h : a ≤ b) :
    (if a > m then m else a) ≤ (if b > m then m else b) := by
  split_ifs <;> linarith

/-- Rust's `f32::round` (ties away from zero) moves a value by at most
one half downwards. -/
theorem roundQ_ge (q : ℚ) : q - 1 / 2 ≤ (roundQ q : ℚ) := by
  unfold roundQ
  rcases le_or_lt 0 q with hq | hq
  · rw [if_pos hq]
    have := Int.sub_one_lt_floor (q + 1 / 2)
    push_cast at this ⊢
    linarith
  · rw [if_neg (not_le.mpr hq)]
    have := Int.le_ceil (q - 1 / 2)
    push_cast at this ⊢
    linarith

/-- Concrete check of `createRect_y_clamp`: extreme metrics
(`position = -10`, thickness 2, `descent = -4`, `cell_height = 20`,
vertical padding 1) round to 25, above `row_bottom - t = 18`, and the
rect's y is the clamped `18 + 1`. -/
theorem createRect_y_clamp_witness :
    ((roundQ ((((0 : ℚ) + 1) * 20 + -4) - -10 - max 2 1 / 2) : ℤ) : ℚ)
        > ((0 : ℚ) + 1) * 20 - max 2 1 ∧
    (RenderLine.createRect ⟨800, 600, 10, 20, 0, 1, 80⟩ (-4) ⟨0, 0⟩ ⟨0, 4⟩
        (-10) 2 ⟨255, 0, 0⟩).y
      = (((0 : ℚ) + 1) * 20 - max 2 1) + 1 :=
  ⟨by norm_num [roundQ],
   (createRect_y_clamp _ _ _ _ _ _ _).2 (by norm_num [roundQ])⟩

/-- C2, counterexample. A single-row `DoubleUnderline` segment with
`descent = 0` and `underline_thickness = 1/2`: the compiler does emit
exactly two `Underline`-kind rects, but both offsets are `0.25 * 0 =
0.75 * 0 = 0`, so the two rects have the *same* y (no strict ordering),
and their thickness is the floored 1, not `underline_thickness = 1/2`. -/
theorem double_underline_cex :
    (RenderLine.rects ⟨⟨0, 0⟩, ⟨0, 4⟩, ⟨255, 0, 0⟩⟩ Flags.DOUBLE_UNDERLINE
        ⟨0, -2, 1 / 2, 0, 0⟩ ⟨800, 600, 10, 20, 0, 0, 80⟩).map
      (fun rs => rs.map (fun r => (r.y, r.height, r.kind)))
      = some [(19, 1, RectKind.Underline), (19, 1, RectKind.Underline)] ∧
    ¬ ((19 : ℚ) < 19) ∧ (1 : ℚ) ≠ 1 / 2 := by
  refine ⟨?_, by norm_num, by norm_num⟩
  norm_num [RenderLine.rects, RenderLine.rectsGo, RenderLine.pushRects,
    RenderLine.createRect, RenderRect.new, roundQ]

/-- C2, amended. A single-row `DoubleUnderline` segment yields exactly
two rects, both of kind `Underline`: the top computed at offset
`0.25 * descent` from the baseline and the bottom at `0.75 * descent`,
each with thickness `max underline_thickness 1` (the floored thickness,
not the raw `underline_thickness`); and for any font metrics the top
rect's y does not exceed the bottom rect's y (equality is possible, e.g.
at `descent = 0`, so the ordering is not strict; for positive descent
both rects clamp to `row_bottom - t`). -/
theorem double_underline_fanout (l : RenderLine) (metrics : Metrics)
    (size : SizeInfo) (h : l.start.line = l.stop.line) :
    l.rects Flags.DOUBLE_UNDERLINE metrics size =
      some [RenderLine.createRect size metrics.descent l.start l.stop
              (0.25 * metrics.descent) metrics.underline_thickness l.color,
            { RenderLine.createRect size metrics.descent l.start l.stop
                (0.75 * metrics.descent) metrics.underline_thickness l.color
              with kind := RectKind.Underline }] ∧
    (RenderLine.createRect size metrics.descent l.start l.stop
        (0.25 * metrics.descent) metrics.underline_thickness l.color).kind
      = RectKind.Underline ∧
    (RenderLine.createRect size metrics.descent l.start l.stop
        (0.25 * metrics.descent) metrics.underline_thickness l.color).height
      = max metrics.underline_thickness 1 ∧
    ({ RenderLine.createRect size metrics.descent l.start l.stop
        (0.75 * metrics.descent) metrics.underline_thickness l.color
        with kind := RectKind.Underline } : RenderRect).height
      = max metrics.underline_thickness 1 ∧
    (RenderLine.createRect size metrics.descent l.start l.stop
        (0.25 * metrics.descent) metrics.underline_thickness l.color).y
      ≤ ({ RenderLine.createRect size metrics.descent l.start l.stop
            (0.75 * metrics.descent) metrics.underline_thickness l.color
            with kind := RectKind.Underline } : RenderRect).y := by
  refine ⟨?_, rfl, rfl, rfl, ?_⟩
  · unfold RenderLine.rects
    rw [h, Nat.sub_self]
    show RenderLine.pushRects _ _ _ _ _ _ = _
    rw [RenderLine.pushRects, if_pos rfl]
  · rw [(createRect_y_clamp size metrics.descent l.start l.stop
      (0.25 * metrics.descent) metrics.underline_thickness l.color).1]
    show _ ≤ (RenderLine.createRect size metrics.descent l.start l.stop
      (0.75 * metrics.descent) metrics.underline_thickness l.color).y
    have ht : (1 : ℚ) ≤ max metrics.underline_thickness 1 :=
      le_max_right _ _
    rcases le_or_lt metrics.descent 0 with hd | hd
    · -- non-positive descent: the top's pre-clamp value is not above the
      -- bottom's, and clamping at the shared bound is monotone
      rw [(createRect_y_clamp size metrics.descent l.start l.stop
        (0.75 * metrics.descent) metrics.underline_thickness l.color).1]
      have hle : (roundQ ((((l.start.line : ℚ) + 1) * size.cellHeight
            + metrics.descent) - 0.25 * metrics.descent
            - max metrics.underline_thickness 1 / 2) : ℚ)
          ≤ (roundQ ((((l.start.line : ℚ) + 1) * size.cellHeight
            + metrics.descent) - 0.75 * metrics.descent
            - max metrics.underline_thickness 1 / 2) : ℚ) := by
        exact_mod_cast roundQ_mono (by nlinarith)
      have := clamp_mono
        (m := ((l.start.line : ℚ) + 1) * size.cellHeight
          - max metrics.underline_thickness 1) hle
      linarith
    · -- positive descent: both rounded values sit above the clamp bound,
      -- so both rects end at exactly row_bottom - t
      have htop := roundQ_ge ((((l.start.line : ℚ) + 1) * size.cellHeight
        + metrics.descent) - 0.25 * metrics.descent
        - max metrics.underline_thickness 1 / 2)
      have hbot := roundQ_ge ((((l.start.line : ℚ) + 1) * size.cellHeight
        + metrics.descent) - 0.75 * metrics.descent
        - max metrics.underline_thickness 1 / 2)
      have hb1 : (roundQ ((((l.start.line : ℚ) + 1) * size.cellHeight
            + metrics.descent) - 0.25 * metrics.descent
            - max metrics.underline_thickness 1 / 2) : ℚ)
          > ((l.start.line : ℚ) + 1) * size.cellHeight
            - max metrics.underline_thickness 1 := by linarith
      have hb2 : (roundQ ((((l.start.line : ℚ) + 1) * size.cellHeight
            + metrics.descent) - 0.75 * metrics.descent
            - max metrics.underline_thickness 1 / 2) : ℚ)
          > ((l.start.line : ℚ) + 1) * size.cellHeight
            - max metrics.underline_thickness 1 := by linarith
      rw [if_pos hb1,
        (createRect_y_clamp size metrics.descent l.start l.stop
          (0.75 * metrics.descent) metrics.underline_thickness l.color).2
          hb2]

/-- An element returned by `getLast?` is a member of the list. -/
theorem getLast?_mem_of_eq {α : Type _} {l : List α} {a : α}
    (h : l.getLast? = some a) : a ∈ l := by
  obtain ⟨hne, rfl⟩ := List.mem_getLast?_eq_getLast (x := a) h
  exact List.getLast_mem hne

/-- The logical end point keeps the cell's row. -/
theorem RenderLines.logicalStop_line (cell : RenderableCell) :
    (RenderLines.logicalStop cell).line = cell.point.line := by
  unfold RenderLines.logicalStop
  split <;> rfl

/-- The logical end column is the cell's column, plus one for a wide
char. -/
theorem RenderLines.logicalStop_column (cell : RenderableCell) :
    (RenderLines.logicalStop cell).column =
      if cell.flags.contains Flags.WIDE_CHAR then cell.point.column + 1
      else cell.point.column := by
  unfold RenderLines.logicalStop
  split <;> rfl

/-- Lemma: `update_flag` rewrites its own flag's bucket through `stepBucket`. -/
theorem RenderLines.updateFlag_inner_self (m : RenderLines)
    (cell : RenderableCell) (flag : Flags) :
    (m.updateFlag cell flag).inner flag =
      RenderLines.stepBucket cell flag (m.inner flag) := by
  simp [RenderLines.updateFlag]

/-- Lemma: `update_flag` leaves every other flag's bucket unchanged. -/
theorem RenderLines.updateFlag_inner_other (m : RenderLines)
    (cell : RenderableCell) (flag f : Flags) (h : f ≠ flag) :
    (m.updateFlag cell flag).inner f = m.inner f := by
  simp [RenderLines.updateFlag, h]

/-- Lemma: `update` is the fold of `update_flag` over the seven decoration flags
in source order. -/
theorem RenderLines.update_eq_foldl (m : RenderLines)
    (cell : RenderableCell) :
    m.update cell =
      Flags.decorationFlags.foldl (fun m g => m.updateFlag cell g) m := rfl

/-- Folding `update_flag` over flags not containing `f` leaves `f`'s
bucket unchanged. -/
theorem RenderLines.foldl_flags_inner_not_mem (cell : RenderableCell)
    (f : Flags) (L : List Flags) (m : RenderLines) (h : f ∉ L) :
    ((L.foldl (fun m g => m.updateFlag cell g) m).inner f) = m.inner f := by
  induction L generalizing m with
  | nil => rfl
  | cons g T ih =>
    simp only [List.foldl_cons]
    rw [ih _ fun hT => h (List.mem_cons_of_mem _ hT),
      RenderLines.updateFlag_inner_other _ _ _ _
        fun he => h (List.mem_cons.mpr (Or.inl he))]

/-- Folding `update_flag` over a duplicate-free list of flags containing
`f` applies `stepBucket` to `f`'s bucket exactly once. -/
theorem RenderLines.foldl_flags_inner_mem (cell : RenderableCell)
    (f : Flags) (L : List Flags) (m : RenderLines) (hmem : f ∈ L)
    (hnd : L.Nodup) :
    ((L.foldl (fun m g => m.updateFlag cell g) m).inner f) =
      RenderLines.stepBucket cell f (m.inner f) := by
  induction L generalizing m with
  | nil => cases hmem
  | cons g T ih =>
    simp only [List.foldl_cons]
    rcases List.mem_cons.mp hmem with rfl | hT
    · rw [RenderLines.foldl_flags_inner_not_mem _ _ _ _
        (List.nodup_cons.mp hnd).1, RenderLines.updateFlag_inner_self]
    · rw [ih _ hT (List.nodup_cons.mp hnd).2,
        RenderLines.updateFlag_inner_other _ _ _ _
          fun he => (List.nodup_cons.mp hnd).1 (by rw [← he]; exact hT)]

/-- For any of the seven decoration flags, `update` transforms that flag's
bucket through `stepBucket`. -/
theorem RenderLines.update_inner (m : RenderLines) (cell : RenderableCell)
    (f : Flags) (hf : f ∈ Flags.decorationFlags) :
    (m.update cell).inner f =
      RenderLines.stepBucket cell f (m.inner f) := by
  rw [RenderLines.update_eq_foldl]
  exact RenderLines.foldl_flags_inner_mem _ _ _ _ hf (by decide)

/-- When the cell carries the flag, `stepBucket` ends with a segment whose
end point is the cell's logical end. -/
theorem RenderLines.stepBucket_getLast (cell : RenderableCell)
    (flag : Flags) (bucket : List RenderLine)
    (h : cell.flags.contains flag = true) :
    ∃ seg : RenderLine,
      (RenderLines.stepBucket cell flag bucket).getLast? = some seg ∧
      seg.stop = RenderLines.logicalStop cell := by
  unfold RenderLines.stepBucket
  rw [h]
  simp only [Bool.not_true, Bool.false_eq_true, if_false]
  rcases hl : bucket.getLast? with _ | line
  · exact ⟨_, List.getLast?_concat _, rfl⟩
  · dsimp only
    split
    · exact ⟨_, List.getLast?_concat _, rfl⟩
    · exact ⟨_, List.getLast?_concat _, rfl⟩

/-- C7. Wide-character extension: when a cell carrying a decoration
flag is the leading half of a wide character, the segment recorded or
extended by `update_flag` ends at column `c + 1`; for a non-wide cell it
ends at column `c` — and in both cases on the cell's own row. -/
theorem updateFlag_wide_char_extension (m : RenderLines)
    (cell : RenderableCell) (flag : Flags)
    (h : cell.flags.contains flag = true) :
    ∃ seg : RenderLine,
      ((m.updateFlag cell flag).inner flag).getLast? = some seg ∧
      seg.stop.column =
        (if cell.flags.contains Flags.WIDE_CHAR then cell.point.column + 1
         else cell.point.column) ∧
      seg.stop.line = cell.point.line := by
  rw [RenderLines.updateFlag_inner_self]
  obtain ⟨seg, hs, hstop⟩ :=
    RenderLines.stepBucket_getLast cell flag (m.inner flag) h
  exact ⟨seg, hs, by rw [hstop, RenderLines.logicalStop_column],
    by rw [hstop, RenderLines.logicalStop_line]⟩

/-- Concrete check of `updateFlag_wide_char_extension`: a wide underlined
cell at column 3 ends its segment at column 4; a plain one at column 3
ends it at column 3. -/
theorem updateFlag_wide_char_extension_witness :
    (∃ seg : RenderLine,
      ((RenderLines.new.updateFlag
          ⟨⟨0, 3⟩, ⟨1, 1, 1⟩, ⟨9, 9, 9⟩,
            { Flags.empty with underline := true, wideChar := true }⟩
          Flags.UNDERLINE).inner Flags.UNDERLINE).getLast? = some seg ∧
      seg.stop.column =
        (if ({ Flags.empty with underline := true, wideChar := true }
            : Flags).contains Flags.WIDE_CHAR then 3 + 1 else 3) ∧
      seg.stop.line = 0) ∧
    (∃ seg : RenderLine,
      ((RenderLines.new.updateFlag
          ⟨⟨0, 3⟩, ⟨1, 1, 1⟩, ⟨9, 9, 9⟩,
            { Flags.empty with underline := true }⟩
          Flags.UNDERLINE).inner Flags.UNDERLINE).getLast? = some seg ∧
      seg.stop.column =
        (if ({ Flags.empty with underline := true } : Flags).contains
            Flags.WIDE_CHAR then 3 + 1 else 3) ∧
      seg.stop.line = 0) :=
  ⟨updateFlag_wide_char_extension _ _ _ (by decide),
   updateFlag_wide_char_extension _ _ _ (by decide)⟩

/-- Lemma: `stepBucket` preserves the per-segment invariant: single row, start
column at most end column. -/
theorem RenderLines.stepBucket_inv (cell : RenderableCell) (flag : Flags)
    (bucket : List RenderLine)
    (hb : ∀ seg ∈ bucket,
      seg.start.line = seg.stop.line ∧ seg.start.column ≤ seg.stop.column) :
    ∀ seg ∈ RenderLines.stepBucket cell flag bucket,
      seg.start.line = seg.stop.line ∧
      seg.start.column ≤ seg.stop.column := by
  intro seg hseg
  rw [RenderLines.stepBucket] at hseg
  by_cases hc : cell.flags.contains flag = true
  · rw [hc] at hseg
    simp only [Bool.not_true, Bool.false_eq_true, if_false] at hseg
    rcases hl : bucket.getLast? with _ | line
    · rw [hl] at hseg
      rcases List.mem_append.mp hseg with hL | hR
      · exact hb seg hL
      · rcases List.mem_singleton.mp hR with rfl
        refine ⟨(RenderLines.logicalStop_line cell).symm, ?_⟩
        show cell.point.column ≤ (RenderLines.logicalStop cell).column
        rw [RenderLines.logicalStop_column]
        split <;> omega
    · rw [hl] at hseg
      dsimp only at hseg
      by_cases hcond : (RenderLines.resolvedColor cell flag = line.color ∧
          cell.point.column = line.stop.column + 1 ∧
          cell.point.line = line.stop.line)
      · rw [if_pos hcond] at hseg
        rcases List.mem_append.mp hseg with hL | hR
        · exact hb seg (List.dropLast_subset _ hL)
        · rcases List.mem_singleton.mp hR with rfl
          obtain ⟨hll, hlc⟩ := hb line (getLast?_mem_of_eq hl)
          obtain ⟨hcolor, hcol, hrow⟩ := hcond
          constructor
          · show line.start.line = (RenderLines.logicalStop cell).line
            rw [RenderLines.logicalStop_line]
            omega
          · show line.start.column ≤ (RenderLines.logicalStop cell).column
            rw [RenderLines.logicalStop_column]
            split <;> omega
      · rw [if_neg hcond] at hseg
        rcases List.mem_append.mp hseg with hL | hR
        · exact hb seg hL
        · rcases List.mem_singleton.mp hR with rfl
          refine ⟨(RenderLines.logicalStop_line cell).symm, ?_⟩
          show cell.point.column ≤ (RenderLines.logicalStop cell).column
          rw [RenderLines.logicalStop_column]
          split <;> omega
  · rw [Bool.not_eq_true] at hc
    rw [hc] at hseg
    simp only [Bool.not_false, if_true] at hseg
    exact hb seg hseg

/-- Lemma: `update_flag` preserves the per-segment invariant on every bucket. -/
theorem RenderLines.updateFlag_inv (m : RenderLines)
    (cell : RenderableCell) (flag : Flags)
    (hm : ∀ f seg, seg ∈ m.inner f →
      seg.start.line = seg.stop.line ∧ seg.start.column ≤ seg.stop.column) :
    ∀ f seg, seg ∈ (m.updateFlag cell flag).inner f →
      seg.start.line = seg.stop.line ∧
      seg.start.column ≤ seg.stop.column := by
  intro f seg hseg
  rw [RenderLines.updateFlag] at hseg
  dsimp only at hseg
  split at hseg
  · exact RenderLines.stepBucket_inv cell flag (m.inner flag)
      (hm flag) seg hseg
  · exact hm f seg hseg

/-- Lemma: `update` preserves the per-segment invariant. -/
theorem RenderLines.update_inv (m : RenderLines) (cell : RenderableCell)
    (hm : ∀ f seg, seg ∈ m.inner f →
      seg.start.line = seg.stop.line ∧ seg.start.column ≤ seg.stop.column) :
    ∀ f seg, seg ∈ (m.update cell).inner f →
      seg.start.line = seg.stop.line ∧
      seg.start.column ≤ seg.stop.column := by
  have : ∀ (L : List Flags) (m : RenderLines),
      (∀ f seg, seg ∈ m.inner f →
        seg.start.line = seg.stop.line ∧
        seg.start.column ≤ seg.stop.column) →
      ∀ f seg,
        seg ∈ ((L.foldl (fun m g => m.updateFlag cell g) m).inner f) →
        seg.start.line = seg.stop.line ∧
        seg.start.column ≤ seg.stop.column := by
    intro L
    induction L with
    | nil => intro m hm; exact hm
    | cons g T ih =>
      intro m hm
      simp only [List.foldl_cons]
      exact ih _ (RenderLines.updateFlag_inv m cell g hm)
  rw [RenderLines.update_eq_foldl]
  exact this _ _ hm

/-- C10. After any sequence of `update` calls on a fresh accumulator,
every stored segment lies on a single row with `start.column ≤
end.column`: extension requires the incoming cell to sit on the segment's
own row, so the accumulator never produces a multi-row segment. -/
theorem accumulator_segments_single_row (cells : List RenderableCell)
    (f : Flags) (seg : RenderLine)
    (hmem : seg ∈ (cells.foldl RenderLines.update RenderLines.new).inner f) :
    seg.start.line = seg.stop.line ∧
    seg.start.column ≤ seg.stop.column := by
  have : ∀ (cs : List RenderableCell) (m : RenderLines),
      (∀ f seg, seg ∈ m.inner f →
        seg.start.line = seg.stop.line ∧
        seg.start.column ≤ seg.stop.column) →
      ∀ f seg, seg ∈ ((cs.foldl RenderLines.update m).inner f) →
        seg.start.line = seg.stop.line ∧
        seg.start.column ≤ seg.stop.column := by
    intro cs
    induction cs with
    | nil => intro m hm; exact hm
    | cons c T ih =>
      intro m hm
      simp only [List.foldl_cons]
      exact ih _ (RenderLines.update_inv m c hm)
  exact this cells RenderLines.new (fun f seg h => absurd h (by simp [RenderLines.new]))
    f seg hmem

/-- Concrete check of `accumulator_segments_single_row` on a two-cell
underlined run. -/
theorem accumulator_segments_single_row_witness :
    (⟨⟨0, 0⟩, ⟨0, 1⟩, ⟨9, 9, 9⟩⟩ : RenderLine) ∈
      (([⟨⟨0, 0⟩, ⟨1, 1, 1⟩, ⟨9, 9, 9⟩, { Flags.empty with underline := true }⟩,
         ⟨⟨0, 1⟩, ⟨1, 1, 1⟩, ⟨9, 9, 9⟩, { Flags.empty with underline := true }⟩]
        : List RenderableCell).foldl RenderLines.update
          RenderLines.new).inner Flags.UNDERLINE ∧
    (0 : ℕ) = 0 ∧ (0 : ℕ) ≤ 1 :=
  ⟨by decide,
   (accumulator_segments_single_row
     [⟨⟨0, 0⟩, ⟨1, 1, 1⟩, ⟨9, 9, 9⟩, { Flags.empty with underline := true }⟩,
      ⟨⟨0, 1⟩, ⟨1, 1, 1⟩, ⟨9, 9, 9⟩, { Flags.empty with underline := true }⟩]
     Flags.UNDERLINE ⟨⟨0, 0⟩, ⟨0, 1⟩, ⟨9, 9, 9⟩⟩ (by decide)).1,
   (accumulator_segments_single_row
     [⟨⟨0, 0⟩, ⟨1, 1, 1⟩, ⟨9, 9, 9⟩, { Flags.empty with underline := true }⟩,
      ⟨⟨0, 1⟩, ⟨1, 1, 1⟩, ⟨9, 9, 9⟩, { Flags.empty with underline := true }⟩]
     Flags.UNDERLINE ⟨⟨0, 0⟩, ⟨0, 1⟩, ⟨9, 9, 9⟩⟩ (by decide)).2⟩

/-- Feeding a run of same-row, same-color, non-wide cells at consecutive
columns `e+1, e+2, …` into `stepBucket` extends the most recent segment
(ending at column `e`) one column at a time, never appending. -/
theorem RenderLines.stepBucket_run (f : Flags) (r : ℕ) (col : Rgb) :
    ∀ (cells : List RenderableCell) (L : List RenderLine) (s : GridPoint)
      (e : ℕ),
    (cells.map fun c => c.point.column) =
      List.range' (e + 1) cells.length →
    (∀ c ∈ cells, c.point.line = r ∧ c.flags.contains f = true ∧
      c.flags.contains Flags.WIDE_CHAR = false ∧
      RenderLines.resolvedColor c f = col) →
    cells.foldl (fun b c => RenderLines.stepBucket c f b)
        (L ++ [⟨s, ⟨r, e⟩, col⟩])
      = L ++ [⟨s, ⟨r, e + cells.length⟩, col⟩] := by
  intro cells
  induction cells with
  | nil => intro L s e _ _; simp
  | cons c T ih =>
    intro L s e hcols hprops
    obtain ⟨hline, hflag, hwide, hcol⟩ := hprops c (List.mem_cons_self _ _)
    rw [List.map_cons, List.length_cons, List.range'_succ] at hcols
    injection hcols with hc0 hrest
    have hpoint : c.point = ⟨r, e + 1⟩ := by
      cases hp : c.point
      simp only [hp] at hline hc0
      simp [hline, hc0]
    have hstop : RenderLines.logicalStop c = ⟨r, e + 1⟩ := by
      rw [RenderLines.logicalStop, hwide]
      simpa using hpoint
    have hstep : RenderLines.stepBucket c f (L ++ [⟨s, ⟨r, e⟩, col⟩])
        = L ++ [⟨s, ⟨r, e + 1⟩, col⟩] := by
      rw [RenderLines.stepBucket, hflag]
      simp only [Bool.not_true, Bool.false_eq_true, if_false]
      rw [List.getLast?_concat]
      dsimp only
      rw [if_pos ⟨hcol, by rw [hpoint], by rw [hpoint]⟩,
        List.dropLast_concat, hstop]
    simp only [List.foldl_cons, hstep]
    have hrec := ih L s (e + 1) hrest
      (fun x hx => hprops x (List.mem_cons_of_mem _ hx))
    rw [hrec]
    have hlen : e + 1 + T.length = e + (c :: T).length := by
      simp only [List.length_cons]
      omega
    rw [hlen]

/-- C3, amended. For a scan-ordered run of cells on one row that all
carry the same decoration flag, resolve to the same color, occupy strictly
increasing consecutive columns **and are not wide-character leading
halves**, the accumulator stores exactly one segment spanning the whole
run; and a segment is extended (bucket length preserved) when and only
when its end lies exactly one column before the incoming cell, on the same
row, with the same resolved color.  (A wide cell inside the run breaks the
merge, because its segment already ends on the following column — see the
counterexample.) -/
theorem accumulator_merge_run (f : Flags) (r c0 : ℕ) (col : Rgb)
    (cells : List RenderableCell)
    (hf : f ∈ Flags.decorationFlags)
    (hne : cells ≠ [])
    (hcols : (cells.map fun c => c.point.column) =
      List.range' c0 cells.length)
    (hprops : ∀ c ∈ cells, c.point.line = r ∧
      c.flags.contains f = true ∧
      c.flags.contains Flags.WIDE_CHAR = false ∧
      RenderLines.resolvedColor c f = col) :
    ((cells.foldl RenderLines.update RenderLines.new).inner f)
      = [⟨⟨r, c0⟩, ⟨r, c0 + cells.length - 1⟩, col⟩] ∧
    ∀ (m : RenderLines) (cell : RenderableCell) (g : Flags),
      cell.flags.contains g = true →
      ((((m.updateFlag cell g).inner g).length = (m.inner g).length) ↔
        ∃ line, (m.inner g).getLast? = some line ∧
          RenderLines.resolvedColor cell g = line.color ∧
          cell.point.column = line.stop.column + 1 ∧
          cell.point.line = line.stop.line) := by
  constructor
  · -- the run yields a single spanning segment
    have hbucket : ∀ (cs : List RenderableCell) (m : RenderLines),
        ((cs.foldl RenderLines.update m).inner f) =
          cs.foldl (fun b c => RenderLines.stepBucket c f b) (m.inner f) := by
      intro cs
      induction cs with
      | nil => intro m; rfl
      | cons c T ih =>
        intro m
        simp only [List.foldl_cons]
        rw [ih, RenderLines.update_inner _ _ _ hf]
    rcases cells with _ | ⟨c, T⟩
    · exact absurd rfl hne
    · obtain ⟨hline, hflag, hwide, hcol⟩ := hprops c (List.mem_cons_self _ _)
      rw [List.map_cons, List.length_cons, List.range'_succ] at hcols
      injection hcols with hc0 hrest
      have hpoint : c.point = ⟨r, c0⟩ := by
        cases hp : c.point
        simp only [hp] at hline hc0
        simp [hline, hc0]
      have hstop : RenderLines.logicalStop c = ⟨r, c0⟩ := by
        rw [RenderLines.logicalStop, hwide]
        simpa using hpoint
      have hfirst : RenderLines.stepBucket c f (RenderLines.new.inner f)
          = [] ++ [⟨⟨r, c0⟩, ⟨r, c0⟩, col⟩] := by
        rw [RenderLines.stepBucket, hflag]
        simp only [Bool.not_true, Bool.false_eq_true, if_false]
        show ([] : List RenderLine) ++ [⟨c.point, RenderLines.logicalStop c,
          RenderLines.resolvedColor c f⟩] = _
        rw [hpoint, hstop, hcol]
      rw [hbucket, List.foldl_cons, hfirst,
        RenderLines.stepBucket_run f r col T [] ⟨r, c0⟩ c0 hrest
          (fun x hx => hprops x (List.mem_cons_of_mem _ hx))]
      simp only [List.nil_append, List.length_cons]
      have : c0 + T.length = c0 + (T.length + 1) - 1 := by omega
      rw [this]
  · -- extension happens exactly under the merge condition
    intro m cell g hg
    rw [RenderLines.updateFlag_inner_self, RenderLines.stepBucket, hg]
    simp only [Bool.not_true, Bool.false_eq_true, if_false]
    rcases hl : (m.inner g).getLast? with _ | line
    · constructor
      · intro h
        simp only [List.length_append, List.length_singleton] at h
        omega
      · rintro ⟨line, hsome, -⟩
        cases hsome
    · dsimp only
      have hbne : m.inner g ≠ [] := by
        intro he
        rw [he] at hl
        cases hl
      by_cases hcond : (RenderLines.resolvedColor cell g = line.color ∧
          cell.point.column = line.stop.column + 1 ∧
          cell.point.line = line.stop.line)
      · rw [if_pos hcond]
        constructor
        · intro _
          exact ⟨line, rfl, hcond.1, hcond.2.1, hcond.2.2⟩
        · intro _
          simp only [List.length_append, List.length_dropLast,
            List.length_singleton]
          have := List.length_pos.mpr hbne
          omega
      · rw [if_neg hcond]
        constructor
        · intro h
          simp only [List.length_append, List.length_singleton] at h
          omega
        · rintro ⟨line', hsome, h1, h2, h3⟩
          injection hsome with he
          subst he
          exact absurd ⟨h1, h2, h3⟩ hcond

/-- C3, counterexample. Two cells on row 0 at consecutive columns 0
and 1, both underlined with the same resolved color — but the first is a
wide-character leading half.  Its segment already ends at column 1, so the
second cell fails the `end + 1` merge test and the accumulator stores two
segments, not one. -/
theorem accumulator_merge_run_cex :
    (([⟨⟨0, 0⟩, ⟨1, 1, 1⟩, ⟨9, 9, 9⟩,
        { Flags.empty with underline := true, wideChar := true }⟩,
       ⟨⟨0, 1⟩, ⟨1, 1, 1⟩, ⟨9, 9, 9⟩,
        { Flags.empty with underline := true }⟩] :
      List RenderableCell).map fun c => c.point.column) =
        List.range' 0 2 ∧
    (∀ c ∈ ([⟨⟨0, 0⟩, ⟨1, 1, 1⟩, ⟨9, 9, 9⟩,
        { Flags.empty with underline := true, wideChar := true }⟩,
       ⟨⟨0, 1⟩, ⟨1, 1, 1⟩, ⟨9, 9, 9⟩,
        { Flags.empty with underline := true }⟩] :
      List RenderableCell), c.point.line = 0 ∧
        c.flags.contains Flags.UNDERLINE = true ∧
        RenderLines.resolvedColor c Flags.UNDERLINE = ⟨9, 9, 9⟩) ∧
    (([⟨⟨0, 0⟩, ⟨1, 1, 1⟩, ⟨9, 9, 9⟩,
        { Flags.empty with underline := true, wideChar := true }⟩,
       ⟨⟨0, 1⟩, ⟨1, 1, 1⟩, ⟨9, 9, 9⟩,
        { Flags.empty with underline := true }⟩] :
      List RenderableCell).foldl RenderLines.update
        RenderLines.new).inner Flags.UNDERLINE
      = [⟨⟨0, 0⟩, ⟨0, 1⟩, ⟨9, 9, 9⟩⟩, ⟨⟨0, 1⟩, ⟨0, 1⟩, ⟨9, 9, 9⟩⟩] ∧
    (([⟨⟨0, 0⟩, ⟨1, 1, 1⟩, ⟨9, 9, 9⟩,
        { Flags.empty with underline := true, wideChar := true }⟩,
       ⟨⟨0, 1⟩, ⟨1, 1, 1⟩, ⟨9, 9, 9⟩,
        { Flags.empty with underline := true }⟩] :
      List RenderableCell).foldl RenderLines.update
        RenderLines.new).inner Flags.UNDERLINE ≠
      [⟨⟨0, 0⟩, ⟨0, 1⟩, ⟨9, 9, 9⟩⟩] := by decide

/-- Concrete check of `accumulator_merge_run`: a two-cell underlined run
at columns 5–6 merges into the single segment `(0,5)–(0,6)`, and the
second cell's update preserves the bucket length (it extends). -/
theorem accumulator_merge_run_witness :
    (([⟨⟨0, 5⟩, ⟨1, 1, 1⟩, ⟨9, 9, 9⟩,
        { Flags.empty with underline := true }⟩,
       ⟨⟨0, 6⟩, ⟨1, 1, 1⟩, ⟨9, 9, 9⟩,
        { Flags.empty with underline := true }⟩] :
      List RenderableCell).foldl RenderLines.update
        RenderLines.new).inner Flags.UNDERLINE
      = [⟨⟨0, 5⟩, ⟨0, 6⟩, ⟨9, 9, 9⟩⟩] ∧
    ((((RenderLines.new.updateFlag
          ⟨⟨0, 5⟩, ⟨1, 1, 1⟩, ⟨9, 9, 9⟩,
            { Flags.empty with underline := true }⟩
          Flags.UNDERLINE).updateFlag
          ⟨⟨0, 6⟩, ⟨1, 1, 1⟩, ⟨9, 9, 9⟩,
            { Flags.empty with underline := true }⟩
          Flags.UNDERLINE).inner Flags.UNDERLINE).length =
      (((RenderLines.new.updateFlag
          ⟨⟨0, 5⟩, ⟨1, 1, 1⟩, ⟨9, 9, 9⟩,
            { Flags.empty with underline := true }⟩
          Flags.UNDERLINE)).inner Flags.UNDERLINE).length ↔
      ∃ line, (((RenderLines.new.updateFlag
          ⟨⟨0, 5⟩, ⟨1, 1, 1⟩, ⟨9, 9, 9⟩,
            { Flags.empty with underline := true }⟩
          Flags.UNDERLINE)).inner Flags.UNDERLINE).getLast? = some line ∧
        RenderLines.resolvedColor
          ⟨⟨0, 6⟩, ⟨1, 1, 1⟩, ⟨9, 9, 9⟩,
            { Flags.empty with underline := true }⟩
          Flags.UNDERLINE = line.color ∧
        (6 : ℕ) = line.stop.column + 1 ∧
        (0 : ℕ) = line.stop.line) :=
  ⟨(accumulator_merge_run Flags.UNDERLINE 0 5 ⟨9, 9, 9⟩
      [⟨⟨0, 5⟩, ⟨1, 1, 1⟩, ⟨9, 9, 9⟩,
        { Flags.empty with underline := true }⟩,
       ⟨⟨0, 6⟩, ⟨1, 1, 1⟩, ⟨9, 9, 9⟩,
        { Flags.empty with underline := true }⟩]
      (by decide) (by decide) (by decide) (by decide)).1,
   (accumulator_merge_run Flags.UNDERLINE 0 5 ⟨9, 9, 9⟩
      [⟨⟨0, 5⟩, ⟨1, 1, 1⟩, ⟨9, 9, 9⟩,
        { Flags.empty with underline := true }⟩,
       ⟨⟨0, 6⟩, ⟨1, 1, 1⟩, ⟨9, 9, 9⟩,
        { Flags.empty with underline := true }⟩]
      (by decide) (by decide) (by decide) (by decide)).2
     (RenderLines.new.updateFlag
        ⟨⟨0, 5⟩, ⟨1, 1, 1⟩, ⟨9, 9, 9⟩,
          { Flags.empty with underline := true }⟩
        Flags.UNDERLINE)
     ⟨⟨0, 6⟩, ⟨1, 1, 1⟩, ⟨9, 9, 9⟩,
       { Flags.empty with underline := true }⟩
     Flags.UNDERLINE (by decide)⟩

/-- Concrete check of `double_underline_fanout` at the spec's scenario
metrics (`descent = -4`, `underline_thickness = 1`) on a single-row
segment. -/
theorem double_underline_fanout_witness :
    ((0 : ℕ) = 0) ∧
    (RenderLine.createRect ⟨800, 600, 10, 20, 0, 0, 80⟩ (-4) ⟨0, 0⟩ ⟨0, 4⟩
        (0.25 * (-4)) 1 ⟨255, 0, 0⟩).y
      ≤ ({ RenderLine.createRect ⟨800, 600, 10, 20, 0, 0, 80⟩ (-4) ⟨0, 0⟩
            ⟨0, 4⟩ (0.75 * (-4)) 1 ⟨255, 0, 0⟩
            with kind := RectKind.Underline } : RenderRect).y :=
  ⟨rfl,
   (double_underline_fanout ⟨⟨0, 0⟩, ⟨0, 4⟩, ⟨255, 0, 0⟩⟩ ⟨-4, -2, 1, 0, 0⟩
     ⟨800, 600, 10, 20, 0, 0, 80⟩ rfl).2.2.2.2⟩

/-- Every recognized decoration flag compiles a row sub-segment to `some`
rect list: two rects for `DOUBLE_UNDERLINE`, one for every other flag. -/
theorem pushRects_recognized (metrics : Metrics) (size : SizeInfo)
    (flag : Flags) (a b : GridPoint) (color : Rgb)
    (hf : flag ∈ Flags.decorationFlags) :
    ∃ rs, RenderLine.pushRects metrics size flag a b color = some rs ∧
      rs.length = (if flag = Flags.DOUBLE_UNDERLINE then 2 else 1) := by
  simp only [Flags.decorationFlags, List.mem_cons, List.not_mem_nil,
    or_false] at hf
  rcases hf with rfl | rfl | rfl | rfl | rfl | rfl | rfl <;>
    simp [RenderLine.pushRects, Flags.UNDERLINE, Flags.DOUBLE_UNDERLINE,
      Flags.STRIKEOUT, Flags.UNDERCURL, Flags.DOTTED_UNDERLINE,
      Flags.DASHED_UNDERLINE, Flags.ROUNDED_BACKGROUND, Flags.empty]

/-- Lemma: `rectsGo` is the fold of `push_rects` over the row sub-segments. -/
theorem RenderLine.rectsGo_eq_foldr (metrics : Metrics) (size : SizeInfo)
    (flag : Flags) (color : Rgb) (stop : GridPoint) :
    ∀ (gas : ℕ) (start : GridPoint),
      RenderLine.rectsGo metrics size flag color stop gas start =
        (RenderLine.subSegmentsGo size.lastColumn stop gas start).foldr
          (fun se acc =>
            match RenderLine.pushRects metrics size flag se.1 se.2 color,
              acc with
            | some a, some b => some (a ++ b)
            | _, _ => none)
          (some []) := by
  intro gas
  induction gas with
  | zero =>
    intro start
    show RenderLine.pushRects metrics size flag start stop color = _
    simp only [RenderLine.subSegmentsGo, List.foldr_cons, List.foldr_nil]
    cases h : RenderLine.pushRects metrics size flag start stop color <;>
      simp
  | succ gas ih =>
    intro start
    show (match RenderLine.pushRects metrics size flag start
        ⟨start.line, size.lastColumn⟩ color,
      RenderLine.rectsGo metrics size flag color stop gas
        ⟨start.line + 1, 0⟩ with
      | some a, some b => some (a ++ b)
      | _, _ => none) = _
    rw [ih]
    rfl

/-- The total rect count of `rectsGo`: `gas + 1` sub-segments, each
contributing two rects for `DOUBLE_UNDERLINE` and one otherwise. -/
theorem RenderLine.rectsGo_length (metrics : Metrics) (size : SizeInfo)
    (flag : Flags) (color : Rgb) (stop : GridPoint)
    (hf : flag ∈ Flags.decorationFlags) :
    ∀ (gas : ℕ) (start : GridPoint),
      ∃ L, RenderLine.rectsGo metrics size flag color stop gas start
          = some L ∧
        L.length = (gas + 1) *
          (if flag = Flags.DOUBLE_UNDERLINE then 2 else 1) := by
  intro gas
  induction gas with
  | zero =>
    intro start
    obtain ⟨rs, h, hlen⟩ := pushRects_recognized metrics size flag start
      stop color hf
    exact ⟨rs, h, by rw [hlen]; ring⟩
  | succ gas ih =>
    intro start
    obtain ⟨a, ha, hal⟩ := pushRects_recognized metrics size flag start
      ⟨start.line, size.lastColumn⟩ color hf
    obtain ⟨b, hb, hbl⟩ := ih ⟨start.line + 1, 0⟩
    refine ⟨a ++ b, ?_, ?_⟩
    · show (match RenderLine.pushRects metrics size flag start
          ⟨start.line, size.lastColumn⟩ color,
        RenderLine.rectsGo metrics size flag color stop gas
          ⟨start.line + 1, 0⟩ with
        | some a, some b => some (a ++ b)
        | _, _ => none) = some (a ++ b)
      rw [ha, hb]
    · rw [List.length_append, hal, hbl]
      ring

/-- Lemma: `subSegmentsGo` yields `gas + 1` sub-segments. -/
theorem RenderLine.subSegmentsGo_length (lastColumn : ℕ)
    (stop : GridPoint) :
    ∀ (gas : ℕ) (start : GridPoint),
      (RenderLine.subSegmentsGo lastColumn stop gas start).length
        = gas + 1 := by
  intro gas
  induction gas with
  | zero => intro start; rfl
  | succ gas ih =>
    intro start
    simp [RenderLine.subSegmentsGo, ih]

/-- Shape of the `i`-th sub-segment: row `start.line + i`, starting at
`start.column` on the first row and column 0 afterwards, ending at the
last visible column except on the final row, which ends at `stop`. -/
theorem RenderLine.subSegmentsGo_get (lastColumn : ℕ) (stop : GridPoint) :
    ∀ (gas : ℕ) (start : GridPoint) (i : ℕ)
      (hi : i < (RenderLine.subSegmentsGo lastColumn stop gas
        start).length),
      (RenderLine.subSegmentsGo lastColumn stop gas start).get ⟨i, hi⟩ =
        (⟨start.line + i, if i = 0 then start.column else 0⟩,
         if i = gas then stop else ⟨start.line + i, lastColumn⟩) := by
  intro gas
  induction gas with
  | zero =>
    intro start i hi
    have hz : i = 0 := by
      have := RenderLine.subSegmentsGo_length lastColumn stop 0 start
      omega
    subst hz
    show (start, stop) = _
    simp
  | succ gas ih =>
    intro start i hi
    cases i with
    | zero =>
      show ((start, ⟨start.line, lastColumn⟩) : GridPoint × GridPoint) = _
      simp [Nat.succ_ne_zero]
    | succ j =>
      have hj : j < (RenderLine.subSegmentsGo lastColumn stop gas
          ⟨start.line + 1, 0⟩).length := by
        have h1 := RenderLine.subSegmentsGo_length lastColumn stop
          (gas + 1) start
        have h2 := RenderLine.subSegmentsGo_length lastColumn stop gas
          (⟨start.line + 1, 0⟩ : GridPoint)
        omega
      show (RenderLine.subSegmentsGo lastColumn stop gas
        ⟨start.line + 1, 0⟩).get ⟨j, hj⟩ = _
      rw [ih]
      have hline : start.line + 1 + j = start.line + (j + 1) := by omega
      simp only [hline, ite_self, Nat.succ_ne_zero, if_false,
        Nat.add_left_inj]

/-- C6. Multi-row split: a segment is decomposed into one sub-segment
per row — the first from `start.column` to the last visible column, full
rows (column 0 to the last visible column) in between, and the final row
ending at `stop` — the compiled output is exactly the concatenation of
`push_rects` over these sub-segments, and each sub-segment contributes
two rects for `DOUBLE_UNDERLINE` and exactly one for every other
recognized flag (so a single-row, non-double segment yields exactly one
rect). -/
theorem multi_row_split (l : RenderLine) (flag : Flags) (metrics : Metrics)
    (size : SizeInfo) (hf : flag ∈ Flags.decorationFlags)
    (hrow : l.start.line ≤ l.stop.line) :
    (∃ L, l.rects flag metrics size = some L ∧
      L.length = (l.stop.line - l.start.line + 1) *
        (if flag = Flags.DOUBLE_UNDERLINE then 2 else 1)) ∧
    (RenderLine.subSegments size.lastColumn l.start l.stop).length
      = l.stop.line - l.start.line + 1 ∧
    (∀ (i : ℕ)
      (hi : i < (RenderLine.subSegments size.lastColumn l.start
        l.stop).length),
      (RenderLine.subSegments size.lastColumn l.start l.stop).get
          ⟨i, hi⟩ =
        (⟨l.start.line + i, if i = 0 then l.start.column else 0⟩,
         if i = l.stop.line - l.start.line then l.stop
         else ⟨l.start.line + i, size.lastColumn⟩)) ∧
    l.rects flag metrics size =
      (RenderLine.subSegments size.lastColumn l.start l.stop).foldr
        (fun se acc =>
          match RenderLine.pushRects metrics size flag se.1 se.2 l.color,
            acc with
          | some a, some b => some (a ++ b)
          | _, _ => none)
        (some []) ∧
    (∀ a b : GridPoint,
      ∃ rs, RenderLine.pushRects metrics size flag a b l.color = some rs ∧
        rs.length = (if flag = Flags.DOUBLE_UNDERLINE then 2 else 1)) := by
  refine ⟨?_, ?_, ?_, ?_, ?_⟩
  · obtain ⟨L, hL, hlen⟩ := RenderLine.rectsGo_length metrics size flag
      l.color l.stop hf (l.stop.line - l.start.line) l.start
    exact ⟨L, hL, hlen⟩
  · exact RenderLine.subSegmentsGo_length _ _ _ _
  · intro i hi
    exact RenderLine.subSegmentsGo_get _ _ _ _ i hi
  · exact RenderLine.rectsGo_eq_foldr metrics size flag l.color l.stop _
      l.start
  · intro a b
    exact pushRects_recognized metrics size flag a b l.color hf

/-- Concrete check of `multi_row_split` on an underline segment spanning
rows 0–2: three sub-segments, three rects. -/
theorem multi_row_split_witness :
    Flags.UNDERLINE ∈ Flags.decorationFlags ∧ (0 : ℕ) ≤ 2 ∧
    (∃ L, RenderLine.rects ⟨⟨0, 2⟩, ⟨2, 5⟩, ⟨9, 9, 9⟩⟩ Flags.UNDERLINE
        ⟨-4, -2, 1, 0, 0⟩ ⟨800, 600, 10, 20, 0, 0, 80⟩ = some L ∧
      L.length = (2 - 0 + 1) *
        (if Flags.UNDERLINE = Flags.DOUBLE_UNDERLINE then 2 else 1)) ∧
    (RenderLine.subSegments
        (⟨800, 600, 10, 20, 0, 0, 80⟩ : SizeInfo).lastColumn ⟨0, 2⟩
        ⟨2, 5⟩).length = 2 - 0 + 1 :=
  ⟨by decide, by decide,
   (multi_row_split ⟨⟨0, 2⟩, ⟨2, 5⟩, ⟨9, 9, 9⟩⟩ Flags.UNDERLINE
     ⟨-4, -2, 1, 0, 0⟩ ⟨800, 600, 10, 20, 0, 0, 80⟩ (by decide)
     (by decide)).1,
   (multi_row_split ⟨⟨0, 2⟩, ⟨2, 5⟩, ⟨9, 9, 9⟩⟩ Flags.UNDERLINE
     ⟨-4, -2, 1, 0, 0⟩ ⟨800, 600, 10, 20, 0, 0, 80⟩ (by decide)
     (by decide)).2.1⟩

/-- The vertex scratch buffer of a kind after the build loop: the
concatenated quads of the rects of that kind, in arrival order. -/
theorem RectRenderer.buildVertices_eq (cx cy : ℚ) :
    ∀ (rects : List RenderRect) (acc : RectKind → List Vertex)
      (k : RectKind),
      (rects.foldl
        (fun vs rect => fun k =>
          if k = rect.kind then vs k ++ RectRenderer.addRect cx cy rect
          else vs k)
        acc) k
      = acc k ++
        ((rects.filter fun r => r.kind == k).map
          (RectRenderer.addRect cx cy)).flatten := by
  intro rects
  induction rects with
  | nil => intro acc k; simp
  | cons r T ih =>
    intro acc k
    simp only [List.foldl_cons, List.filter_cons]
    rw [ih]
    by_cases hk : r.kind = k
    · rw [if_pos hk.symm]
      have hbeq : (r.kind == k) = true := by simp [hk]
      rw [hbeq]
      simp [List.append_assoc]
    · rw [if_neg fun h => hk h.symm]
      have hbeq : (r.kind == k) = false := by simp [hk]
      rw [hbeq]
      simp

/-- A kind's vertex buffer is empty exactly when no rect of that kind
arrived. -/
theorem RectRenderer.buildVertices_isEmpty (cx cy : ℚ)
    (rects : List RenderRect) (k : RectKind) :
    (RectRenderer.buildVertices cx cy rects k).isEmpty
      = !(rects.any fun r => r.kind == k) := by
  unfold RectRenderer.buildVertices
  rw [RectRenderer.buildVertices_eq]
  simp only [List.nil_append]
  induction rects with
  | nil => rfl
  | cons r T ih =>
    simp only [List.filter_cons, List.any_cons]
    cases hk : (r.kind == k)
    · simpa [hk] using ih
    · simp [hk, RectRenderer.addRect]

/-- Lemma: `draw` visits the kinds in descending ordinal order, keeps the
non-empty buckets, and emits one step (one upload + one draw) per kept
bucket, carrying that bucket's vertex count. -/
theorem RectRenderer.drawSteps_eq (size : SizeInfo)
    (rects : List RenderRect) :
    RectRenderer.drawSteps size rects =
      ([RectKind.RoundedBg, RectKind.UnderDashed, RectKind.UnderDotted,
        RectKind.Undercurl, RectKind.Underline].filter
        (fun k => rects.any fun r => r.kind == k)).map
        (fun k => ⟨k, (RectRenderer.buildVertices (size.width / 2)
          (size.height / 2) rects k).length⟩) := by
  simp only [RectRenderer.drawSteps, RectKind.numKinds]
  rw [show (List.range 5).reverse = [4, 3, 2, 1, 0] from by decide]
  simp only [List.filterMap_cons, List.filterMap_nil, RectKind.fromNat,
    List.filter_cons, List.filter_nil, List.map_cons, List.map_nil,
    RectRenderer.buildVertices_isEmpty]
  cases h4 : rects.any (fun r => r.kind == RectKind.RoundedBg) <;>
    cases h3 : rects.any (fun r => r.kind == RectKind.UnderDashed) <;>
      cases h2 : rects.any (fun r => r.kind == RectKind.UnderDotted) <;>
        cases h1 : rects.any (fun r => r.kind == RectKind.Undercurl) <;>
          cases h0 : rects.any (fun r => r.kind == RectKind.Underline) <;>
            simp [h4, h3, h2, h1, h0]

/-- C4. `draw` visits the five kind buckets in descending kind-ordinal
order (`RoundedBg`, `UnderDashed`, `UnderDotted`, `Undercurl`,
`Underline`), emits exactly one step — one buffer upload plus one draw
submission — per non-empty bucket and none for an empty bucket, and rects
built by the plain `RenderRect::new` constructor carry kind `Underline`
and therefore land in the last batch drawn. -/
theorem draw_descending_order (size : SizeInfo) (rects : List RenderRect) :
    ((RectRenderer.drawSteps size rects).map RectRenderer.DrawStep.kind
      = ([RectKind.RoundedBg, RectKind.UnderDashed, RectKind.UnderDotted,
          RectKind.Undercurl, RectKind.Underline].filter
            (fun k => rects.any fun r => r.kind == k))) ∧
    ((RectRenderer.drawSteps size rects).map
      RectRenderer.DrawStep.kind).Nodup ∧
    (∀ k : RectKind,
      (k ∈ (RectRenderer.drawSteps size rects).map
          RectRenderer.DrawStep.kind
        ↔ (rects.any fun r => r.kind == k) = true)) ∧
    (∀ (x y w h : ℚ) (c : Rgb) (a : ℚ),
      (RenderRect.new x y w h c a).kind = RectKind.Underline) ∧
    ((rects.any fun r => r.kind == RectKind.Underline) = true →
      ((RectRenderer.drawSteps size rects).getLast?).map
        RectRenderer.DrawStep.kind = some RectKind.Underline) := by
  have hmap : (RectRenderer.drawSteps size rects).map
      RectRenderer.DrawStep.kind
      = ([RectKind.RoundedBg, RectKind.UnderDashed, RectKind.UnderDotted,
          RectKind.Undercurl, RectKind.Underline].filter
            (fun k => rects.any fun r => r.kind == k)) := by
    rw [RectRenderer.drawSteps_eq, List.map_map]
    exact List.map_id _
  refine ⟨hmap, ?_, ?_, fun x y w h c a => rfl, ?_⟩
  · rw [hmap]
    exact (show ([RectKind.RoundedBg, RectKind.UnderDashed,
      RectKind.UnderDotted, RectKind.Undercurl,
      RectKind.Underline]).Nodup from by decide).filter _
  · intro k
    rw [hmap, List.mem_filter]
    constructor
    · rintro ⟨-, hp⟩
      exact hp
    · intro hp
      exact ⟨by cases k <;> decide, hp⟩
  · intro hU
    rw [← List.getLast?_map, hmap]
    have hsplit : ([RectKind.RoundedBg, RectKind.UnderDashed,
        RectKind.UnderDotted, RectKind.Undercurl,
        RectKind.Underline].filter
          (fun k => rects.any fun r => r.kind == k))
        = ([RectKind.RoundedBg, RectKind.UnderDashed,
            RectKind.UnderDotted, RectKind.Undercurl].filter
          (fun k => rects.any fun r => r.kind == k))
          ++ [RectKind.Underline] := by
      rw [show [RectKind.RoundedBg, RectKind.UnderDashed,
          RectKind.UnderDotted, RectKind.Undercurl, RectKind.Underline]
          = [RectKind.RoundedBg, RectKind.UnderDashed,
            RectKind.UnderDotted, RectKind.Undercurl]
            ++ [RectKind.Underline] from rfl, List.filter_append]
      simp [hU]
    rw [hsplit, List.getLast?_concat]

/-- Concrete check of `draw_descending_order`: with one plain-constructor
rect and one `RoundedBg` rect, the `RoundedBg` bucket is drawn first and
the `Underline` bucket (holding the plain rect) is drawn last. -/
theorem draw_descending_order_witness :
    (([RenderRect.new 5 5 10 10 ⟨1, 2, 3⟩ 1,
       { RenderRect.new 0 0 1 1 ⟨4, 5, 6⟩ 1
         with kind := RectKind.RoundedBg }] : List RenderRect).any
      fun r => r.kind == RectKind.Underline) = true ∧
    ((RectRenderer.drawSteps ⟨100, 100, 10, 20, 0, 0, 80⟩
        [RenderRect.new 5 5 10 10 ⟨1, 2, 3⟩ 1,
         { RenderRect.new 0 0 1 1 ⟨4, 5, 6⟩ 1
           with kind := RectKind.RoundedBg }]).getLast?).map
      RectRenderer.DrawStep.kind = some RectKind.Underline :=
  ⟨by decide,
   (draw_descending_order ⟨100, 100, 10, 20, 0, 0, 80⟩
     [RenderRect.new 5 5 10 10 ⟨1, 2, 3⟩ 1,
      { RenderRect.new 0 0 1 1 ⟨4, 5, 6⟩ 1
        with kind := RectKind.RoundedBg }]).2.2.2.2 (by decide)⟩

/-- C5. Shader fallback: a compilation failure of the `Underline`,
`Undercurl`, `UnderDashed` or `RoundedBg` variant makes renderer
construction fail; a failure of only the `UnderDotted` variant is caught
and its slot is filled with a freshly compiled `Underline` program
(header `none`), so construction succeeds with the `programs` array
`[Underline, Undercurl, Underline-fallback, UnderDashed, RoundedBg]`. -/
theorem dotted_shader_fallback (fails : RectKind → Bool) :
    ((fails RectKind.UnderDotted = true ∧
      fails RectKind.Underline = false ∧
      fails RectKind.Undercurl = false ∧
      fails RectKind.UnderDashed = false ∧
      fails RectKind.RoundedBg = false) →
      RectRenderer.new fails = Except.ok
        [⟨shaderHeader RectKind.Underline⟩,
         ⟨shaderHeader RectKind.Undercurl⟩,
         ⟨shaderHeader RectKind.Underline⟩,
         ⟨shaderHeader RectKind.UnderDashed⟩,
         ⟨shaderHeader RectKind.RoundedBg⟩]) ∧
    (fails RectKind.Underline = true →
      RectRenderer.new fails = Except.error ()) ∧
    (fails RectKind.Undercurl = true →
      RectRenderer.new fails = Except.error ()) ∧
    (fails RectKind.UnderDashed = true →
      RectRenderer.new fails = Except.error ()) ∧
    (fails RectKind.RoundedBg = true →
      RectRenderer.new fails = Except.error ()) := by
  refine ⟨?_, ?_, ?_, ?_, ?_⟩
  · rintro ⟨hd, h0, h1, h3, h4⟩
    simp [RectRenderer.new, RectShaderProgram.new, hd, h0, h1, h3, h4,
      Bind.bind, Except.bind, Pure.pure, Except.pure]
  · intro h
    simp [RectRenderer.new, RectShaderProgram.new, h, Bind.bind,
      Except.bind, Pure.pure, Except.pure]
  · intro h
    cases h0 : fails RectKind.Underline <;>
      simp [RectRenderer.new, RectShaderProgram.new, h, h0, Bind.bind,
        Except.bind, Pure.pure, Except.pure]
  · intro h
    cases h0 : fails RectKind.Underline <;>
      cases h1 : fails RectKind.Undercurl <;>
        cases h2 : fails RectKind.UnderDotted <;>
          simp [RectRenderer.new, RectShaderProgram.new, h, h0, h1, h2,
            Bind.bind, Except.bind, Pure.pure, Except.pure]
  · intro h
    cases h0 : fails RectKind.Underline <;>
      cases h1 : fails RectKind.Undercurl <;>
        cases h2 : fails RectKind.UnderDotted <;>
          cases h3 : fails RectKind.UnderDashed <;>
            simp [RectRenderer.new, RectShaderProgram.new, h, h0, h1, h2,
              h3, Bind.bind, Except.bind, Pure.pure, Except.pure]

/-- Concrete check of `dotted_shader_fallback`: with the fault pattern
that fails exactly the `UnderDotted` compilation, construction succeeds
and slot 2 of the programs array is an `Underline` program. -/
theorem dotted_shader_fallback_witness :
    ((fun k => k == RectKind.UnderDotted) RectKind.UnderDotted = true ∧
      (fun k => k == RectKind.UnderDotted) RectKind.Underline = false ∧
      (fun k => k == RectKind.UnderDotted) RectKind.Undercurl = false ∧
      (fun k => k == RectKind.UnderDotted) RectKind.UnderDashed = false ∧
      (fun k => k == RectKind.UnderDotted) RectKind.RoundedBg = false) ∧
    RectRenderer.new (fun k => k == RectKind.UnderDotted) = Except.ok
      [⟨shaderHeader RectKind.Underline⟩,
       ⟨shaderHeader RectKind.Undercurl⟩,
       ⟨shaderHeader RectKind.Underline⟩,
       ⟨shaderHeader RectKind.UnderDashed⟩,
       ⟨shaderHeader RectKind.RoundedBg⟩] :=
  ⟨⟨by decide, by decide, by decide, by decide, by decide⟩,
   (dotted_shader_fallback (fun k => k == RectKind.UnderDotted)).1
     ⟨by decide, by decide, by decide, by decide, by decide⟩⟩
